import Mathlib

/-!
Verification of the GeoPlot AI core: the Reconciliation Engine
(`mergeBoreholes` in the application component) and the Layout Engine
(`SoilProfileChart`).  The definitions below are a shallow embedding of the
TypeScript source: JavaScript numbers are modelled as rationals (`ℚ`),
JavaScript's stable `Array.prototype.sort` with a consistent comparator is
modelled by insertion sort (any stable sort is observationally identical),
and fallible rendering is modelled with `Except`.
-/

namespace GeoPlot

/-! ### Data model (src/types.ts) -/

/-- `SoilLayer` from src/types.ts.  Optional string fields are `Option String`;
`pattern` is kept as a plain string tag. -/
structure SoilLayer where
  id : String
  depthFrom : ℚ
  depthTo : ℚ
  description : String
  uscs : String
  finePercent : Option String := none
  plasticity : Option String := none
  swelling : Option String := none
  colorText : Option String := none
  color : Option String := none
  pattern : Option String := none
deriving DecidableEq, Repr

/-- `SPTRecord` from src/types.ts. -/
structure SPTRecord where
  id : String
  depth : ℚ
  value : ℚ
  notes : Option String := none
deriving DecidableEq, Repr

/-- `HeaderData` from src/types.ts. -/
structure HeaderData where
  projectName : String
  boreholeName : String
  date : String
  elevation : String
  coordinates : String
  client : String
  waterTable : String
deriving DecidableEq, Repr

/-- `ExtractedData` from src/types.ts: one raw borehole fragment. -/
structure ExtractedData where
  internalId : String
  header : HeaderData
  layers : List SoilLayer
  spt : List SPTRecord
deriving DecidableEq, Repr

/-! ### String helpers -/

/-- JavaScript `String.prototype.trim` restricted to the ASCII whitespace
characters that occur in extracted borehole names. -/
def jsTrim (s : String) : String :=
  String.mk (((s.data.dropWhile Char.isWhitespace).reverse.dropWhile
    Char.isWhitespace).reverse)

/-! ### Stable sorting and set-based deduplication

`existing.layers = [...existing.layers, ...item.layers].sort((a,b) => a.depthFrom - b.depthFrom)`
uses the (since ES2019, specified-stable) JavaScript sort with a consistent
numeric comparator; `List.insertionSort` is a stable sort and therefore an
exact model of its observable behaviour.  The subsequent
`filter` with a `Set` of seen keys keeps the first occurrence of every key
and drops all later ones. -/

/-- Comparator `(a, b) => a.depthFrom - b.depthFrom` as a relation. -/
def layerLe (a b : SoilLayer) : Prop := a.depthFrom ≤ b.depthFrom

instance : DecidableRel layerLe := fun a b =>
  inferInstanceAs (Decidable (a.depthFrom ≤ b.depthFrom))

instance : IsTotal SoilLayer layerLe := ⟨fun a b => le_total a.depthFrom b.depthFrom⟩

instance : IsTrans SoilLayer layerLe := ⟨fun _ _ _ h h' => le_trans h h'⟩

/-- Comparator `(a, b) => a.depth - b.depth` for SPT records. -/
def sptLe (a b : SPTRecord) : Prop := a.depth ≤ b.depth

instance : DecidableRel sptLe := fun a b =>
  inferInstanceAs (Decidable (a.depth ≤ b.depth))

instance : IsTotal SPTRecord sptLe := ⟨fun a b => le_total a.depth b.depth⟩

instance : IsTrans SPTRecord sptLe := ⟨fun _ _ _ h h' => le_trans h h'⟩

/-- The deduplication key of a layer: the template string
`` `${l.depthFrom}-${l.depthTo}` `` is injective on the numbers that occur, so
it is modelled by the pair itself. -/
def layerKeyOf (l : SoilLayer) : ℚ × ℚ := (l.depthFrom, l.depthTo)

/-- `list.filter` with a `Set` of already-seen keys: keeps an element iff its
key is not in `seen` yet, adding it to `seen` as it goes — i.e. the first
occurrence of each key survives, every later one is dropped. -/
def dedupByKey {α β : Type} [DecidableEq β] (key : α → β) :
    List α → List β → List α
  | [], _ => []
  | x :: xs, seen =>
    if key x ∈ seen then dedupByKey key xs seen
    else x :: dedupByKey key xs (key x :: seen)

/-- `[...existing, ...incoming].sort((a,b) => a.depthFrom - b.depthFrom)`. -/
def sortLayers (ls : List SoilLayer) : List SoilLayer := ls.insertionSort layerLe

/-- `[...existing, ...incoming].sort((a,b) => a.depth - b.depth)`. -/
def sortSpt (ss : List SPTRecord) : List SPTRecord := ss.insertionSort sptLe

/-- The body of the `if (item.layers.length > 0)` branch of `mergeBoreholes`:
append, stable-sort by `depthFrom`, then drop later exact
`(depthFrom, depthTo)` duplicates. -/
def mergeLayers (existing incoming : List SoilLayer) : List SoilLayer :=
  dedupByKey layerKeyOf (sortLayers (existing ++ incoming)) []

/-- The body of the `if (item.spt.length > 0)` branch: append, stable-sort by
`depth`, then drop later exact-`depth` duplicates. -/
def mergeSpt (existing incoming : List SPTRecord) : List SPTRecord :=
  dedupByKey SPTRecord.depth (sortSpt (existing ++ incoming)) []

/-! ### Header back-fill and the per-key merge step -/

/-- The four `if (...) existing.header.X = item.header.X` assignments of
`mergeBoreholes` (JS `!s` on a string is `s === ""`):
`projectName` when empty, `elevation` when empty or `"0.00"`,
`coordinates` when empty, `waterTable` when `"-"` or empty. -/
def backfillHeader (ex inc : HeaderData) : HeaderData :=
  { ex with
    projectName := if ex.projectName = "" then inc.projectName else ex.projectName
    elevation :=
      if ex.elevation = "" ∨ ex.elevation = "0.00" then inc.elevation else ex.elevation
    coordinates := if ex.coordinates = "" then inc.coordinates else ex.coordinates
    waterTable :=
      if ex.waterTable = "-" ∨ ex.waterTable = "" then inc.waterTable else ex.waterTable }

/-- One merge of a later fragment `item` into the existing canonical record:
layers and SPT are re-merged only when the incoming list is nonempty
(`if (item.layers.length > 0)` / `if (item.spt.length > 0)`), and the header
is back-filled field by field. -/
def mergeInto (existing item : ExtractedData) : ExtractedData :=
  { existing with
    layers :=
      if item.layers.length > 0 then mergeLayers existing.layers item.layers
      else existing.layers
    spt :=
      if item.spt.length > 0 then mergeSpt existing.spt item.spt
      else existing.spt
    header := backfillHeader existing.header item.header }

/-! ### The keyed map

`mergedMap : Record<string, ExtractedData>` is modelled as an association
list in insertion order.  (JavaScript enumerates integer-like string keys
first; since the final result is re-sorted by a consistent comparator, the
enumeration order is observable only through stable-sort tie-breaking among
comparator-equal distinct names, on which no property below depends.)
`mergedMap[name] = { ...item }` stores a shallow copy, value-equal to
`item`. -/

/-- First-match lookup in the association list (property read on the JS
record object). -/
def lookupKey (m : List (String × ExtractedData)) (k : String) :
    Option ExtractedData :=
  match m with
  | [] => none
  | (k', v) :: rest => if k' = k then some v else lookupKey rest k

/-- One iteration of the `rawList.forEach` body: trim the name, drop the
fragment when the trimmed name is empty, otherwise create or merge the entry
for that key. -/
def insertFrag (m : List (String × ExtractedData)) (item : ExtractedData) :
    List (String × ExtractedData) :=
  let name := jsTrim item.header.boreholeName
  if name = "" then m
  else
    match lookupKey m name with
    | none => m ++ [(name, item)]
    | some _ => m.map fun e => if e.1 = name then (e.1, mergeInto e.2 item) else e

/-- The map after the whole `rawList.forEach(...)` loop. -/
def buildMap (rawList : List ExtractedData) : List (String × ExtractedData) :=
  rawList.foldl insertFrag []

/-! ### Natural (numeric-aware) name comparison

`a.header.boreholeName.localeCompare(b.header.boreholeName, undefined,
{numeric: true, sensitivity: 'base'})` is a host collation.  For the
borehole-name alphabet (ASCII letters, digits, hyphen, space) ICU collation
with those options folds case and compares maximal digit runs by numeric
value, with punctuation before digits before letters — modelled here by a
flattened token key compared lexicographically. -/

/-- ASCII case folding (sensitivity `'base'`). -/
def lowerChar (c : Char) : Char :=
  if 'A' ≤ c ∧ c ≤ 'Z' then Char.ofNat (c.toNat + 32) else c

/-- Tokenise a character list into a flat key: a maximal digit run becomes
`[1, value]`, any other character `c` becomes `[tag, code]` with `tag = 0`
for codes before `'0'` (punctuation, space) and `tag = 2` otherwise
(letters), so punctuation < numbers < letters, and equal-position numbers
compare by value.  The accumulator holds the value of a pending digit run. -/
def charTokens : List Char → Option ℕ → List ℕ
  | [], none => []
  | [], some n => [1, n]
  | c :: cs, acc =>
    if c.isDigit then
      charTokens cs (some ((acc.getD 0) * 10 + (c.toNat - 48)))
    else
      let lc := (lowerChar c).toNat
      let tok : List ℕ := [if lc < 48 then 0 else 2, lc]
      (match acc with
       | none => tok
       | some n => [1, n] ++ tok) ++ charTokens cs none

/-- The collation key of a string. -/
def naturalKey (s : String) : List ℕ := charTokens s.data none

/-- Lexicographic comparison of collation keys:
`keyLe x y = true` iff the comparator returns a non-positive value. -/
def keyLe : List ℕ → List ℕ → Bool
  | [], _ => true
  | _ :: _, [] => false
  | a :: as, b :: bs => if a < b then true else if b < a then false else keyLe as bs

/-- The final `.sort((a, b) => a.header.boreholeName.localeCompare(...))`
relation: `a` may precede `b` iff the comparator is ≤ 0. -/
def bhLe (a b : ExtractedData) : Prop :=
  keyLe (naturalKey a.header.boreholeName) (naturalKey b.header.boreholeName) = true

instance : DecidableRel bhLe := fun a b =>
  inferInstanceAs (Decidable
    (keyLe (naturalKey a.header.boreholeName) (naturalKey b.header.boreholeName) = true))

/-- The Reconciliation Engine: `mergeBoreholes` builds the keyed map by one
forEach pass, then returns `Object.values(mergedMap)` sorted by natural
borehole-name comparison. -/
def mergeBoreholes (rawList : List ExtractedData) : List ExtractedData :=
  ((buildMap rawList).map Prod.snd).insertionSort bhLe

/-! ### Layout Engine (src/components/SoilProfileChart.tsx)

Pixel constants from the component body. -/

def COLUMN_WIDTH : ℚ := 420
def COLUMN_GAP : ℚ := 50
def MARGIN_TOP : ℚ := 100
def MARGIN_BOTTOM : ℚ := 220
def MARGIN_SIDES : ℚ := 80
def PIXELS_PER_METER : ℚ := 70

/-- One maximal digit run: value, number of digits consumed, rest of the
input. -/
def parseDigits : List Char → ℕ × ℕ × List Char
  | [] => (0, 0, [])
  | c :: cs =>
    if c.isDigit then
      let (v, n, rest) := parseDigits cs
      ((c.toNat - 48) * 10 ^ n + v, n + 1, rest)
    else (0, 0, c :: cs)

/-- JavaScript `parseFloat` on a string already stripped to the alphabet
`{digits, '.', '-'}` (the only characters `parseElevation` leaves): an
optional leading `'-'`, an integer part, an optional `'.'` plus fraction
part, stopping at the first other character; `none` models `NaN` (no digit
consumed). -/
def jsParseFloat (cs : List Char) : Option ℚ :=
  let signRest : ℚ × List Char :=
    match cs with
    | '-' :: rest => (-1, rest)
    | _ => (1, cs)
  let (ip, ic, cs2) := parseDigits signRest.2
  let frac : ℕ × ℕ :=
    match cs2 with
    | '.' :: rest =>
      let (v, n, _) := parseDigits rest
      (v, n)
    | _ => (0, 0)
  if ic = 0 ∧ frac.2 = 0 then none
  else some (signRest.1 * ((ip : ℚ) + (frac.1 : ℚ) / 10 ^ frac.2))

/-- `parseElevation`: strip every character other than digits, `.` and `-`,
`parseFloat` the rest, and map `NaN` to 0. -/
def parseElevation (s : String) : ℚ :=
  (jsParseFloat (s.data.filter fun c => c.isDigit || c = '.' || c = '-')).getD 0

/-- `Math.max(...xs)` over a nonempty spread; the `[]` case (JS `-Infinity`)
never occurs in the theorems below, which carry nonemptiness. -/
def listMax : List ℚ → ℚ
  | [] => 0
  | x :: xs => xs.foldl max x

/-- `Math.min(...xs)` over a nonempty spread. -/
def listMin : List ℚ → ℚ
  | [] => 0
  | x :: xs => xs.foldl min x

/-- `const elevations = data.map(d => parseElevation(d.header.elevation))`. -/
def elevationsOf (data : List ExtractedData) : List ℚ :=
  data.map fun d => parseElevation d.header.elevation

/-- `isRelativeMode = (maxRawElev - minRawElev) > 50 || data.length < 2`. -/
def isRelativeMode (data : List ExtractedData) : Bool :=
  decide (listMax (elevationsOf data) - listMin (elevationsOf data) > 50)
    || decide (data.length < 2)

/-- `plotElevations = data.map((d, i) => isRelativeMode ? 0 : elevations[i])`. -/
def plotElevations (data : List ExtractedData) : List ℚ :=
  data.map fun d => if isRelativeMode data then 0 else parseElevation d.header.elevation

/-- `Math.max(...bh.layers.map(l => l.depthTo), ...bh.spt.map(s => s.depth), 10)`. -/
def maxPlottedDepth (bh : ExtractedData) : ℚ :=
  listMax ((bh.layers.map SoilLayer.depthTo) ++ (bh.spt.map SPTRecord.depth) ++ [10])

/-- `maxAbsElev = Math.ceil(max surf) + 1` (the forEach reduction over the
plotting-surface elevations, then the ceiling-plus-margin adjustment). -/
def maxAbsElev (data : List ExtractedData) : ℤ :=
  ⌈listMax (plotElevations data)⌉ + 1

/-- `minAbsElev = Math.floor(min (surf - maxD)) - 1`. -/
def minAbsElev (data : List ExtractedData) : ℤ :=
  ⌊listMin (List.zipWith (fun surf bh => surf - maxPlottedDepth bh)
      (plotElevations data) data)⌋ - 1

/-- The shared elevation-to-pixel map
`getY = (abs) => MARGIN_TOP + (maxAbsElev - abs) * PIXELS_PER_METER`. -/
def getY (topElev : ℤ) (abs : ℚ) : ℚ :=
  MARGIN_TOP + ((topElev : ℚ) - abs) * PIXELS_PER_METER

/-- A grid-line label: `isRelativeMode ? `-${i}m` : elev`. -/
inductive GridLabel where
  | negDepth (i : ℕ)
  | absElev (e : ℤ)
deriving DecidableEq, Repr

/-- One horizontal grid line with its label text. -/
structure GridLine where
  elev : ℤ
  y : ℚ
  label : GridLabel
deriving DecidableEq, Repr

/-- The lithology rectangle of one layer:
`x = startX + 30`, `width = 50`, `y ∈ [getY(surf - depthFrom), getY(surf - depthTo)]`. -/
structure LayerRect where
  layer : SoilLayer
  x : ℚ
  w : ℚ
  yTop : ℚ
  yBot : ℚ
  h : ℚ
deriving DecidableEq, Repr

/-- One plotted SPT point:
`x = xS + (Math.min(p.value, 50) / 50) * 100`, `y = getY(surf - p.depth)`. -/
structure SptPoint where
  record : SPTRecord
  x : ℚ
  y : ℚ
deriving DecidableEq, Repr

/-- One borehole column of the layout.  `sptAfter` records the contents of
`bh.spt` after rendering: `bh.spt.sort((a,b) => a.depth - b.depth)` sorts the
canonical record's array in place, and both the polyline and the circles
(`bh.spt.map`) then iterate the mutated array. -/
structure BoreholeColumn where
  bh : ExtractedData
  startX : ℚ
  surf : ℚ
  rects : List LayerRect
  points : List SptPoint
  polyline : List (ℚ × ℚ)
  sptAfter : List SPTRecord
deriving DecidableEq, Repr

/-- The layout model produced by one render. -/
structure LayoutModel where
  canvasWidth : ℚ
  canvasHeight : ℚ
  isRel : Bool
  topElev : ℤ
  botElev : ℤ
  grid : List GridLine
  columns : List BoreholeColumn
  legendProject : String
deriving DecidableEq, Repr

/-- One borehole column at index `idx` with plotting-surface elevation
`surf`: `startX = MARGIN_SIDES + 50 + idx * (COLUMN_WIDTH + COLUMN_GAP)`;
layer rectangles over `bh.layers` as stored; SPT geometry over the
in-place-sorted `bh.spt`. -/
def buildColumn (topElev : ℤ) (idx : ℕ) (bh : ExtractedData) (surf : ℚ) :
    BoreholeColumn :=
  let startX : ℚ := MARGIN_SIDES + 50 + (idx : ℚ) * (COLUMN_WIDTH + COLUMN_GAP)
  let xS := startX + COLUMN_WIDTH - 100
  let sortedSpt := sortSpt bh.spt
  let mkPoint : SPTRecord → SptPoint := fun p =>
    { record := p
      x := xS + min p.value 50 / 50 * 100
      y := getY topElev (surf - p.depth) }
  { bh := bh
    startX := startX
    surf := surf
    rects := bh.layers.map fun l =>
      let yTop := getY topElev (surf - l.depthFrom)
      let yBot := getY topElev (surf - l.depthTo)
      { layer := l, x := startX + 30, w := 50, yTop := yTop, yBot := yBot, h := yBot - yTop }
    points := sortedSpt.map mkPoint
    polyline := sortedSpt.map fun p => ((mkPoint p).x, (mkPoint p).y)
    sptAfter := sortedSpt }

/-- The layout for a nonempty canonical list (`d0` is `data[0]`, read by the
legend block). -/
def buildLayoutCore (data : List ExtractedData) (d0 : ExtractedData) : LayoutModel :=
  let topElev := maxAbsElev data
  let botElev := minAbsElev data
  let elevRange := topElev - botElev
  let chartHeight : ℚ := (elevRange : ℚ) * PIXELS_PER_METER
  let contentWidth : ℚ :=
    MARGIN_SIDES * 2 + (data.length : ℚ) * COLUMN_WIDTH
      + ((data.length : ℚ) - 1) * COLUMN_GAP
  let rel := isRelativeMode data
  { canvasWidth := contentWidth + 100
    canvasHeight := chartHeight + MARGIN_TOP + MARGIN_BOTTOM
    isRel := rel
    topElev := topElev
    botElev := botElev
    grid := (List.range (elevRange.toNat + 1)).map fun (i : ℕ) =>
      { elev := topElev - (i : ℤ)
        y := getY topElev ((topElev : ℚ) - (i : ℚ))
        label := if rel then .negDepth i else .absElev (topElev - (i : ℤ)) }
    columns := (List.zip data (plotElevations data)).enum.map fun p =>
      buildColumn topElev p.1 p.2.1 p.2.2
    legendProject := d0.header.projectName }

/-- The Layout Engine.  With zero boreholes the component's legend block
evaluates `data[0].header.projectName` on `undefined` and the render throws a
`TypeError` (the numeric prelude only produces IEEE infinities, which raise
nothing); no layout is produced.  With at least one borehole the render is
total. -/
def buildLayout : List ExtractedData → Except String LayoutModel
  | [] => .error "TypeError: cannot read properties of undefined (reading header)"
  | d :: rest => .ok (buildLayoutCore (d :: rest) d)

/-! ### Derived notions used to state the properties -/

/-- The trimmed borehole name — the reconciliation key of a fragment. -/
def trimName (f : ExtractedData) : String := jsTrim f.header.boreholeName

/-- What the forEach loop computes for one key from the arrival-ordered
fragments carrying that key: the first fragment seeds the entry
(`mergedMap[name] = { ...item }`), every later one is merged into it. -/
def processKey : List ExtractedData → Option ExtractedData
  | [] => none
  | f :: fs => some (fs.foldl mergeInto f)

/-- A layer list ordered ascending by `depthFrom` in which no two layers
share the same `(depthFrom, depthTo)` pair. -/
def layersWellFormed (L : List SoilLayer) : Prop :=
  L.Sorted layerLe ∧ (L.map layerKeyOf).Nodup

instance (L : List SoilLayer) : Decidable (layersWellFormed L) :=
  inferInstanceAs (Decidable (_ ∧ _))

/-- An SPT list ordered ascending by `depth` in which no two records share
the same depth. -/
def sptWellFormed (S : List SPTRecord) : Prop :=
  S.Sorted sptLe ∧ (S.map SPTRecord.depth).Nodup

instance (S : List SPTRecord) : Decidable (sptWellFormed S) :=
  inferInstanceAs (Decidable (_ ∧ _))

/-- Contents, after `mergeBoreholes` has run, of the header OBJECT of the
first-arriving fragment of a key whose same-key successors are `rest`:
`mergedMap[name] = { ...item }` is a shallow copy, so the map entry and that
fragment share one header object, and each back-fill assignment
`existing.header.X = item.header.X` writes through it.  (It equals the
canonical record's header — they are the same object.) -/
def firstFragmentHeaderAfter (first : ExtractedData) (rest : List ExtractedData) :
    HeaderData :=
  (rest.foldl mergeInto first).header

/-! ### Concrete sample data for the witnesses and counterexamples -/

/-- A fragment as `parseBoreholeLog` produces it: `client` is always `""`,
missing elevation defaults to `"0.00"`, missing water table to `"-"`. -/
def mkFrag (id name elev : String) (ls : List SoilLayer) (ss : List SPTRecord) :
    ExtractedData :=
  { internalId := id
    header := { projectName := "", boreholeName := name, date := "", elevation := elev,
                coordinates := "", client := "", waterTable := "-" }
    layers := ls
    spt := ss }

def lay01 : SoilLayer :=
  { id := "w1", depthFrom := 0, depthTo := 1, description := "clay, first fragment",
    uscs := "CL" }

def lay01b : SoilLayer :=
  { id := "w2", depthFrom := 0, depthTo := 1, description := "clay, second fragment",
    uscs := "CH" }

def lay23 : SoilLayer :=
  { id := "w3", depthFrom := 2, depthTo := 3, description := "sand", uscs := "SP" }

def lay35 : SoilLayer :=
  { id := "w4", depthFrom := 3, depthTo := 5, description := "fill", uscs := "Fill" }

def spt1 : SPTRecord := { id := "s1", depth := 1, value := 7 }

def spt1b : SPTRecord := { id := "s2", depth := 1, value := 9 }

def spt2 : SPTRecord := { id := "s3", depth := 2, value := 12 }

def spt4 : SPTRecord := { id := "s4", depth := 4, value := 30 }

/-- C1 witness input: elevations 10 and 80, spread 70 > 50. -/
def dataC1 : List ExtractedData :=
  [mkFrag "c1a" "1" "10" [lay01] [], mkFrag "c1b" "2" "80" [lay01b] []]

/-- C2 witness: existing record with a duplicate-key collision against the
incoming fragment. -/
def exC2 : ExtractedData := mkFrag "c2x" "A" "10" [lay01, lay23] [spt1, spt2]

def itC2 : ExtractedData := mkFrag "c2y" "A" "11" [lay01b, lay35] [spt1b, spt4]

/-- C2 counterexample: first fragment arrives with unsorted layers and SPT,
second fragment for the same key carries none. -/
def fragC2a : ExtractedData := mkFrag "c2a" "A" "10" [lay23, lay01] [spt2, spt1]

def fragC2b : ExtractedData := mkFrag "c2b" "A" "12" [] []

/-- C3 counterexample: first-seen header with empty `projectName` and empty
`date`; the later fragment carries both. -/
def fragC3a : ExtractedData := mkFrag "c3a" "BH-7" "12.3" [] []

def fragC3b : ExtractedData :=
  { internalId := "c3b"
    header := { projectName := "Tower", boreholeName := " BH-7 ", date := "2024-01-01",
                elevation := "12.0", coordinates := "X", client := "", waterTable := "2.5" }
    layers := []
    spt := [] }

/-- C4 counterexample: a single fragment with unsorted layers. -/
def fragC4 : ExtractedData := mkFrag "c4" "C4" "5" [lay23, lay01] []

/-- C4 witness input: two fragments for one key, both with layers and SPT. -/
def dataC4 : List ExtractedData :=
  [mkFrag "c4a" "B" "7" [lay23, lay01] [spt2, spt1], mkFrag "c4b" "B" "8" [lay35] [spt4]]

/-- C5 counterexample: same multiset in both orders, no layer or SPT records
at all, differing only in header elevation. -/
def fragC5a : ExtractedData := mkFrag "c5a" "A" "10" [] []

def fragC5b : ExtractedData := mkFrag "c5b" "A" "30" [] []

/-- C5 witness: two fragments with distinct keys, swapped. -/
def fragC5c : ExtractedData := mkFrag "c5c" "A" "1" [lay01] [spt1]

def fragC5d : ExtractedData := mkFrag "c5d" "B" "2" [lay23] [spt2]

/-- C6/C9 witness borehole. -/
def fragC6 : ExtractedData := mkFrag "c6" "1" "3.5" [lay01, lay23] [spt1, spt2]

/-- C7 fragments named so that naive lexicographic order would be wrong. -/
def fragBH2 : ExtractedData := mkFrag "c7a" "BH-2" "1" [] []

def fragBH10 : ExtractedData := mkFrag "c7b" "BH-10" "2" [] []

def fragBH1 : ExtractedData := mkFrag "c7c" "BH-1" "3" [] []

/-- C8 sample fragments: one attributable, one blank-named. -/
def fragC8a : ExtractedData := mkFrag "c8a" " A " "4" [lay01] [spt1]

def fragC8blank : ExtractedData := mkFrag "c8b" "   " "9" [lay23] [spt2]

/-- C10 counterexample data: back-fill fires on the placeholder elevation;
the layout input's SPT arrives unsorted. -/
def fragC10a : ExtractedData := mkFrag "c10a" "K" "0.00" [] []

def fragC10b : ExtractedData := mkFrag "c10b" "K" "31.5" [] []

def bhC10 : ExtractedData := mkFrag "c10c" "K" "2" [lay01] [spt2, spt1]

/-- The single rendered column of the C10 layout input. -/
def colC10 : BoreholeColumn :=
  (buildLayoutCore [bhC10] bhC10).columns.getD 0 (buildColumn 0 0 bhC10 0)

/-! ## Helper lemmas -/

theorem foldl_max_le (xs : List ℚ) : ∀ x : ℚ, x ≤ xs.foldl max x ∧ ∀ e ∈ xs, e ≤ xs.foldl max x := by
  induction xs with
  | nil => intro x; exact ⟨le_refl x, by simp⟩
  | cons y ys ih =>
    intro x
    refine ⟨le_trans (le_max_left x y) (ih (max x y)).1, ?_⟩
    intro e he
    rcases List.mem_cons.mp he with h | h
    · subst h
      exact le_trans (le_max_right x e) (ih (max x e)).1
    · exact (ih (max x y)).2 e h

theorem foldl_max_mem (xs : List ℚ) : ∀ x : ℚ, xs.foldl max x = x ∨ xs.foldl max x ∈ xs := by
  induction xs with
  | nil => intro x; exact Or.inl rfl
  | cons y ys ih =>
    intro x
    rcases ih (max x y) with h | h
    · rcases max_choice x y with hm | hm
      · exact Or.inl (by rw [List.foldl_cons, h, hm])
      · exact Or.inr (by rw [List.foldl_cons, h, hm]; exact List.mem_cons_self y ys)
    · exact Or.inr (List.mem_cons_of_mem y h)

theorem foldl_min_le (xs : List ℚ) : ∀ x : ℚ, xs.foldl min x ≤ x ∧ ∀ e ∈ xs, xs.foldl min x ≤ e := by
  induction xs with
  | nil => intro x; exact ⟨le_refl x, by simp⟩
  | cons y ys ih =>
    intro x
    refine ⟨le_trans (ih (min x y)).1 (min_le_left x y), ?_⟩
    intro e he
    rcases List.mem_cons.mp he with h | h
    · subst h
      exact le_trans (ih (min x e)).1 (min_le_right x e)
    · exact (ih (min x y)).2 e h

theorem foldl_min_mem (xs : List ℚ) : ∀ x : ℚ, xs.foldl min x = x ∨ xs.foldl min x ∈ xs := by
  induction xs with
  | nil => intro x; exact Or.inl rfl
  | cons y ys ih =>
    intro x
    rcases ih (min x y) with h | h
    · rcases min_choice x y with hm | hm
      · exact Or.inl (by rw [List.foldl_cons, h, hm])
      · exact Or.inr (by rw [List.foldl_cons, h, hm]; exact List.mem_cons_self y ys)
    · exact Or.inr (List.mem_cons_of_mem y h)

theorem listMax_spec (l : List ℚ) (h : l ≠ []) :
    listMax l ∈ l ∧ ∀ e ∈ l, e ≤ listMax l := by
  match l with
  | [] => exact absurd rfl h
  | x :: xs =>
    constructor
    · show xs.foldl max x ∈ x :: xs
      rcases foldl_max_mem xs x with h' | h'
      · rw [h']; exact List.mem_cons_self x xs
      · exact List.mem_cons_of_mem x h'
    · intro e he
      show e ≤ xs.foldl max x
      rcases List.mem_cons.mp he with h' | h'
      · exact h' ▸ (foldl_max_le xs x).1
      · exact (foldl_max_le xs x).2 e h'

theorem listMin_spec (l : List ℚ) (h : l ≠ []) :
    listMin l ∈ l ∧ ∀ e ∈ l, listMin l ≤ e := by
  match l with
  | [] => exact absurd rfl h
  | x :: xs =>
    constructor
    · show xs.foldl min x ∈ x :: xs
      rcases foldl_min_mem xs x with h' | h'
      · rw [h']; exact List.mem_cons_self x xs
      · exact List.mem_cons_of_mem x h'
    · intro e he
      show xs.foldl min x ≤ e
      rcases List.mem_cons.mp he with h' | h'
      · exact h' ▸ (foldl_min_le xs x).1
      · exact (foldl_min_le xs x).2 e h'

theorem keyLe_cons_iff (a b : ℕ) (as bs : List ℕ) :
    keyLe (a :: as) (b :: bs) = true ↔ (a < b ∨ (a = b ∧ keyLe as bs = true)) := by
  simp only [keyLe]
  split_ifs with h1 h2
  · simp [h1]
  · simp [h1, show a ≠ b from by omega]
  · have hab : a = b := by omega
    subst hab
    simp

theorem keyLe_total : ∀ x y : List ℕ, keyLe x y = true ∨ keyLe y x = true := by
  intro x
  induction x with
  | nil => intro y; exact Or.inl rfl
  | cons a as ih =>
    intro y
    cases y with
    | nil => exact Or.inr rfl
    | cons b bs =>
      rw [keyLe_cons_iff, keyLe_cons_iff]
      rcases Nat.lt_trichotomy a b with h | h | h
      · exact Or.inl (Or.inl h)
      · subst h
        rcases ih bs with h' | h'
        · exact Or.inl (Or.inr ⟨rfl, h'⟩)
        · exact Or.inr (Or.inr ⟨rfl, h'⟩)
      · exact Or.inr (Or.inl h)

theorem keyLe_trans :
    ∀ x y z : List ℕ, keyLe x y = true → keyLe y z = true → keyLe x z = true := by
  intro x
  induction x with
  | nil => intro y z _ _; rfl
  | cons a as ih =>
    intro y z hxy hyz
    cases y with
    | nil => exact absurd hxy (by simp [keyLe])
    | cons b bs =>
      cases z with
      | nil => exact absurd hyz (by simp [keyLe])
      | cons c cs =>
        rw [keyLe_cons_iff] at hxy hyz ⊢
        rcases hxy with h | ⟨rfl, h⟩
        · rcases hyz with h' | ⟨rfl, h'⟩
          · exact Or.inl (lt_trans h h')
          · exact Or.inl h
        · rcases hyz with h' | ⟨rfl, h'⟩
          · exact Or.inl h'
          · exact Or.inr ⟨rfl, ih bs cs h h'⟩

instance : IsTotal ExtractedData bhLe :=
  ⟨fun a b => keyLe_total (naturalKey a.header.boreholeName) (naturalKey b.header.boreholeName)⟩

instance : IsTrans ExtractedData bhLe :=
  ⟨fun _ _ _ h h' => keyLe_trans _ _ _ h h'⟩

section DedupLemmas

variable {α β : Type} [DecidableEq β] (key : α → β)

theorem dedupByKey_sublist :
    ∀ (l : List α) (seen : List β), List.Sublist (dedupByKey key l seen) l := by
  intro l
  induction l with
  | nil => intro seen; exact List.Sublist.refl []
  | cons x xs ih =>
    intro seen
    rw [dedupByKey]
    split
    · exact (ih seen).cons x
    · exact (ih (key x :: seen)).cons₂ x

theorem dedupByKey_keys_nodup :
    ∀ (l : List α) (seen : List β),
      ((dedupByKey key l seen).map key).Nodup ∧
        ∀ b ∈ (dedupByKey key l seen).map key, b ∉ seen := by
  intro l
  induction l with
  | nil => intro seen; simp [dedupByKey]
  | cons x xs ih =>
    intro seen
    rw [dedupByKey]
    split
    · exact ih seen
    · rename_i hx
      obtain ⟨hnd, hout⟩ := ih (key x :: seen)
      refine ⟨?_, ?_⟩
      · simp only [List.map_cons, List.nodup_cons]
        exact ⟨fun hmem => (hout _ hmem) (List.mem_cons_self _ _), hnd⟩
      · intro b hb
        simp only [List.map_cons, List.mem_cons] at hb
        rcases hb with rfl | hb
        · exact hx
        · exact fun hbs => (hout b hb) (List.mem_cons_of_mem _ hbs)

theorem dedupByKey_filter (k : β) :
    ∀ (l : List α) (seen : List β),
      (dedupByKey key l seen).filter (fun x => decide (key x = k)) =
        if k ∈ seen then [] else (l.filter (fun x => decide (key x = k))).take 1 := by
  intro l
  induction l with
  | nil => intro seen; simp [dedupByKey]
  | cons x xs ih =>
    intro seen
    rw [dedupByKey]
    by_cases hx : key x ∈ seen
    · rw [if_pos hx, ih]
      by_cases hk : k ∈ seen
      · simp [hk]
      · have hxk : ¬ key x = k := fun h => hk (h ▸ hx)
        simp [hk, List.filter_cons, hxk]
    · rw [if_neg hx]
      by_cases hxk : key x = k
      · subst hxk
        rw [List.filter_cons_of_pos (by simp), ih]
        simp [hx, List.filter_cons]
      · rw [List.filter_cons_of_neg (by simp [hxk]), ih]
        have hne : k ≠ key x := fun h => hxk h.symm
        by_cases hk : k ∈ seen
        · simp [List.mem_cons, hne, hk]
        · simp [List.mem_cons, hne, hk, List.filter_cons, hxk]

end DedupLemmas

section StableFilterLemmas

variable {α : Type} (r : α → α → Prop) [DecidableRel r] (p : α → Bool)

theorem filter_orderedInsert_pos (a : α) :
    ∀ l : List α, p a = true → (∀ b ∈ l, p b = true → r a b) →
      (l.orderedInsert r a).filter p = a :: l.filter p := by
  intro l
  induction l with
  | nil => intro ha _; simp [List.orderedInsert, ha]
  | cons b t ih =>
    intro ha h
    rw [List.orderedInsert]
    split
    · rw [List.filter_cons_of_pos ha]
    · rename_i hr
      have hb : p b = false := by
        cases hpb : p b
        · rfl
        · exact absurd (h b (List.mem_cons_self b t) hpb) hr
      rw [List.filter_cons_of_neg (by simp [hb]),
        List.filter_cons_of_neg (by simp [hb])]
      exact ih ha fun c hc => h c (List.mem_cons_of_mem b hc)

theorem filter_orderedInsert_neg (a : α) :
    ∀ l : List α, p a = false → (l.orderedInsert r a).filter p = l.filter p := by
  intro l
  induction l with
  | nil => intro ha; simp [List.orderedInsert, ha]
  | cons b t ih =>
    intro ha
    rw [List.orderedInsert]
    split
    · rw [List.filter_cons_of_neg (by simp [ha])]
    · cases hb : p b
      · rw [List.filter_cons_of_neg (by simp [hb]),
          List.filter_cons_of_neg (by simp [hb])]
        exact ih ha
      · rw [List.filter_cons_of_pos hb, List.filter_cons_of_pos hb, ih ha]

/-- Stability of the sort, phrased for the merge proofs: elements that all
tie under the comparator keep their relative order, so filtering them out of
the sorted list gives the same subsequence as filtering the input. -/
theorem filter_insertionSort_of_tie
    (hp : ∀ x y, p x = true → p y = true → r x y) :
    ∀ l : List α, (l.insertionSort r).filter p = l.filter p := by
  intro l
  induction l with
  | nil => rfl
  | cons x t ih =>
    rw [List.insertionSort]
    cases hx : p x
    · rw [filter_orderedInsert_neg r p x _ hx, ih,
        List.filter_cons_of_neg (by simp [hx])]
    · rw [filter_orderedInsert_pos r p x _ hx ?h, ih,
        List.filter_cons_of_pos hx]
      case h =>
        intro b hb hpb
        exact hp x b hx hpb

end StableFilterLemmas

/-! ### Association-list lemmas for the keyed map -/

@[simp] theorem lookupKey_nil (k : String) : lookupKey [] k = none := rfl

@[simp] theorem lookupKey_cons (k' : String) (v : ExtractedData)
    (rest : List (String × ExtractedData)) (k : String) :
    lookupKey ((k', v) :: rest) k = if k' = k then some v else lookupKey rest k := rfl

theorem lookupKey_append (m : List (String × ExtractedData)) (n : String)
    (it : ExtractedData) (k : String) :
    lookupKey (m ++ [(n, it)]) k =
      match lookupKey m k with
      | some v => some v
      | none => if n = k then some it else none := by
  induction m with
  | nil => simp [lookupKey]
  | cons e rest ih =>
    obtain ⟨k', v⟩ := e
    by_cases h : k' = k
    · simp [h]
    · simpa [h] using ih

theorem lookupKey_mapUpdate (m : List (String × ExtractedData)) (n : String)
    (g : ExtractedData → ExtractedData) (k : String) :
    lookupKey (m.map fun e => if e.1 = n then (e.1, g e.2) else e) k =
      if k = n then (lookupKey m k).map g else lookupKey m k := by
  induction m with
  | nil => by_cases h : k = n <;> simp [h]
  | cons e rest ih =>
    obtain ⟨k', v⟩ := e
    simp only [List.map_cons]
    by_cases hn : k' = n
    · subst hn
      by_cases hk : k' = k
      · subst hk
        simp [ih]
      · have hk' : ¬ k = k' := fun h => hk h.symm
        simp [ih, hk, hk']
    · by_cases hk : k' = k
      · subst hk
        simp [hn]
      · simp [hn, hk, ih]

theorem lookupKey_eq_none_iff (m : List (String × ExtractedData)) (k : String) :
    lookupKey m k = none ↔ k ∉ m.map Prod.fst := by
  induction m with
  | nil => simp
  | cons e rest ih =>
    obtain ⟨k', v⟩ := e
    by_cases h : k' = k
    · subst h
      simp
    · simp [if_neg h, ih, show k ≠ k' from fun hh => h hh.symm]

theorem keys_mapUpdate (m : List (String × ExtractedData)) (n : String)
    (g : ExtractedData → ExtractedData) :
    (m.map fun e => if e.1 = n then (e.1, g e.2) else e).map Prod.fst =
      m.map Prod.fst := by
  induction m with
  | nil => rfl
  | cons e rest ih =>
    obtain ⟨k', v⟩ := e
    by_cases h : k' = n <;> simp [h, ih]

theorem mem_iff_lookupKey :
    ∀ (m : List (String × ExtractedData)), (m.map Prod.fst).Nodup →
      ∀ e : String × ExtractedData, e ∈ m ↔ lookupKey m e.1 = some e.2 := by
  intro m
  induction m with
  | nil => intro _ e; simp
  | cons x rest ih =>
    intro hm e
    obtain ⟨k', v⟩ := x
    simp only [List.map_cons, List.nodup_cons] at hm
    simp only [lookupKey_cons]
    constructor
    · intro he
      rcases List.mem_cons.mp he with h | h
      · subst h
        simp
      · have hne : k' ≠ e.1 := by
          intro hkk
          apply hm.1
          rw [hkk]
          exact List.mem_map_of_mem Prod.fst h
        rw [if_neg hne]
        exact (ih hm.2 e).mp h
    · intro he
      by_cases h : k' = e.1
      · rw [if_pos h] at he
        injection he with he'
        have hev : e = (k', v) := by
          obtain ⟨e1, e2⟩ := e
          simp only at h he'
          rw [Prod.mk.injEq]
          exact ⟨h.symm, he'.symm⟩
        rw [hev]
        exact List.mem_cons_self _ _
      · rw [if_neg h] at he
        exact List.mem_cons_of_mem _ ((ih hm.2 e).mpr he)

/-- `insertFrag` on a blank-named fragment is the identity. -/
theorem insertFrag_blank (m : List (String × ExtractedData)) (item : ExtractedData)
    (h : jsTrim item.header.boreholeName = "") : insertFrag m item = m := by
  simp [insertFrag, h]

/-- The central characterisation: after folding fragments into an initial
map, the entry at a nonempty key is determined by the initial entry and the
arrival-ordered subsequence of fragments with that trimmed name. -/
theorem lookupKey_foldl_insertFrag :
    ∀ (raw : List ExtractedData) (m : List (String × ExtractedData)) (k : String),
      k ≠ "" →
      lookupKey (raw.foldl insertFrag m) k =
        match lookupKey m k with
        | some v =>
            some ((raw.filter fun f => decide (trimName f = k)).foldl mergeInto v)
        | none => processKey (raw.filter fun f => decide (trimName f = k)) := by
  intro raw
  induction raw with
  | nil =>
    intro m k _
    cases h : lookupKey m k <;> simp [processKey, h]
  | cons item rest ih =>
    intro m k hk
    rw [List.foldl_cons]
    by_cases hn : jsTrim item.header.boreholeName = ""
    · rw [insertFrag_blank m item hn]
      have hnk : ¬ trimName item = k := by
        rw [trimName, hn]
        exact fun h => hk h.symm
      rw [List.filter_cons_of_neg (by simp [hnk])]
      exact ih m k hk
    · by_cases hkn : trimName item = k
      · rw [List.filter_cons_of_pos (by simp [hkn])]
        rw [trimName] at hkn
        cases hl : lookupKey m (jsTrim item.header.boreholeName) with
        | none =>
          have hstep : insertFrag m item
              = m ++ [(jsTrim item.header.boreholeName, item)] := by
            simp [insertFrag, hn, hl]
          have hmk : lookupKey m k = none := hkn ▸ hl
          rw [hstep, ih _ k hk, lookupKey_append, hmk]
          simp [hkn, processKey]
        | some v =>
          have hstep : insertFrag m item =
              m.map fun e =>
                if e.1 = jsTrim item.header.boreholeName
                then (e.1, mergeInto e.2 item) else e := by
            simp [insertFrag, hn, hl]
          have hmk : lookupKey m k = some v := hkn ▸ hl
          rw [hstep, ih _ k hk,
            lookupKey_mapUpdate m (jsTrim item.header.boreholeName)
              (fun x => mergeInto x item) k,
            if_pos hkn.symm, hmk]
          simp
      · rw [List.filter_cons_of_neg (by simp [hkn])]
        rw [trimName] at hkn
        have hpres : lookupKey (insertFrag m item) k = lookupKey m k := by
          cases hl : lookupKey m (jsTrim item.header.boreholeName) with
          | none =>
            have hstep : insertFrag m item
                = m ++ [(jsTrim item.header.boreholeName, item)] := by
              simp [insertFrag, hn, hl]
            rw [hstep, lookupKey_append]
            cases hmk : lookupKey m k
            · simp [hkn]
            · simp
          | some v =>
            have hstep : insertFrag m item =
                m.map fun e =>
                  if e.1 = jsTrim item.header.boreholeName
                  then (e.1, mergeInto e.2 item) else e := by
              simp [insertFrag, hn, hl]
            rw [hstep,
              lookupKey_mapUpdate m (jsTrim item.header.boreholeName)
                (fun x => mergeInto x item) k,
              if_neg (show ¬ k = jsTrim item.header.boreholeName from
                fun h => hkn h.symm)]
        rw [ih (insertFrag m item) k hk, hpres]

/-- Every key ever stored in the map is a nonempty string. -/
theorem foldl_insertFrag_keys_ne :
    ∀ (raw : List ExtractedData) (m : List (String × ExtractedData)),
      (∀ e ∈ m, e.1 ≠ "") → ∀ e ∈ raw.foldl insertFrag m, e.1 ≠ "" := by
  intro raw
  induction raw with
  | nil => intro m hm; exact hm
  | cons item rest ih =>
    intro m hm
    rw [List.foldl_cons]
    apply ih
    intro e he
    rw [insertFrag] at he
    split_ifs at he with hb
    · exact hm e he
    · rcases hmatch : lookupKey m (jsTrim item.header.boreholeName) with _ | v
      · rw [hmatch] at he
        rcases List.mem_append.mp he with h | h
        · exact hm e h
        · rcases List.mem_singleton.mp h with rfl
          exact hb
      · rw [hmatch] at he
        rcases List.mem_map.mp he with ⟨e', he', rfl⟩
        split_ifs
        · exact hm e' he'
        · exact hm e' he'

/-- The stored keys stay pairwise distinct. -/
theorem foldl_insertFrag_keys_nodup :
    ∀ (raw : List ExtractedData) (m : List (String × ExtractedData)),
      (m.map Prod.fst).Nodup → ((raw.foldl insertFrag m).map Prod.fst).Nodup := by
  intro raw
  induction raw with
  | nil => intro m hm; exact hm
  | cons item rest ih =>
    intro m hm
    rw [List.foldl_cons]
    apply ih
    rw [insertFrag]
    split_ifs with hb
    · exact hm
    · rcases hmatch : lookupKey m (jsTrim item.header.boreholeName) with _ | v
      · have hnotin : jsTrim item.header.boreholeName ∉ m.map Prod.fst :=
          (lookupKey_eq_none_iff m _).mp hmatch
        simp [List.nodup_append, hm, hnotin]
      · show (List.map Prod.fst (m.map fun e =>
            if e.1 = jsTrim item.header.boreholeName
            then (e.1, mergeInto e.2 item) else e)).Nodup
        rw [keys_mapUpdate m (jsTrim item.header.boreholeName) fun x => mergeInto x item]
        exact hm

/-- "" is never a key of the final map. -/
theorem lookupKey_buildMap_empty (rawList : List ExtractedData) :
    lookupKey (buildMap rawList) "" = none := by
  rw [lookupKey_eq_none_iff]
  intro hmem
  rcases List.mem_map.mp hmem with ⟨e, he, hfst⟩
  exact foldl_insertFrag_keys_ne rawList [] (by simp) e he hfst

/-- Specialisation of the fold characterisation to the full engine. -/
theorem lookupKey_buildMap (rawList : List ExtractedData) (k : String) (hk : k ≠ "") :
    lookupKey (buildMap rawList) k =
      processKey (rawList.filter fun f => decide (trimName f = k)) := by
  rw [buildMap, lookupKey_foldl_insertFrag rawList [] k hk]
  rfl

theorem buildMap_keys_nodup (rawList : List ExtractedData) :
    ((buildMap rawList).map Prod.fst).Nodup :=
  foldl_insertFrag_keys_nodup rawList [] (by simp)

/-! ### Shape invariant for canonical layer and SPT sequences -/

theorem mergeLayers_wellFormed (a b : List SoilLayer) :
    layersWellFormed (mergeLayers a b) := by
  constructor
  · exact List.Pairwise.sublist
      (dedupByKey_sublist layerKeyOf (sortLayers (a ++ b)) [])
      (List.sorted_insertionSort layerLe (a ++ b))
  · exact (dedupByKey_keys_nodup layerKeyOf (sortLayers (a ++ b)) []).1

theorem mergeSpt_wellFormed (a b : List SPTRecord) :
    sptWellFormed (mergeSpt a b) := by
  constructor
  · exact List.Pairwise.sublist
      (dedupByKey_sublist SPTRecord.depth (sortSpt (a ++ b)) [])
      (List.sorted_insertionSort sptLe (a ++ b))
  · exact (dedupByKey_keys_nodup SPTRecord.depth (sortSpt (a ++ b)) []).1

/-- Shape of every stored record: its layer list is well formed unless it is
verbatim the layer list of some input fragment, and likewise for SPT. -/
theorem foldl_insertFrag_shape (full : List ExtractedData) :
    ∀ (raw : List ExtractedData), (∀ f ∈ raw, f ∈ full) →
      ∀ (m : List (String × ExtractedData)),
        (∀ e ∈ m,
          (layersWellFormed e.2.layers ∨ ∃ f ∈ full, e.2.layers = f.layers) ∧
          (sptWellFormed e.2.spt ∨ ∃ f ∈ full, e.2.spt = f.spt)) →
        ∀ e ∈ raw.foldl insertFrag m,
          (layersWellFormed e.2.layers ∨ ∃ f ∈ full, e.2.layers = f.layers) ∧
          (sptWellFormed e.2.spt ∨ ∃ f ∈ full, e.2.spt = f.spt) := by
  intro raw
  induction raw with
  | nil => intro _ m hm; exact hm
  | cons item rest ih =>
    intro hraw m hm
    rw [List.foldl_cons]
    apply ih (fun f hf => hraw f (List.mem_cons_of_mem item hf))
    intro e he
    have hitem : item ∈ full := hraw item (List.mem_cons_self item rest)
    rw [insertFrag] at he
    split_ifs at he with hb
    · exact hm e he
    · rcases hmatch : lookupKey m (jsTrim item.header.boreholeName) with _ | v
      · rw [hmatch] at he
        rcases List.mem_append.mp he with h | h
        · exact hm e h
        · rcases List.mem_singleton.mp h with rfl
          exact ⟨Or.inr ⟨item, hitem, rfl⟩, Or.inr ⟨item, hitem, rfl⟩⟩
      · rw [hmatch] at he
        rcases List.mem_map.mp he with ⟨e', he', rfl⟩
        split_ifs
        · constructor
          · rw [mergeInto]
            simp only
            split_ifs with hl
            · exact Or.inl (mergeLayers_wellFormed e'.2.layers item.layers)
            · exact (hm e' he').1
          · rw [mergeInto]
            simp only
            split_ifs with hs
            · exact Or.inl (mergeSpt_wellFormed e'.2.spt item.spt)
            · exact (hm e' he').2
        · exact hm e' he'

/-! ### Lemmas for the first-wins characterisation -/

theorem take_one_append_left {α : Type} (a b : List α) (h : a ≠ []) :
    (a ++ b).take 1 = a.take 1 := by
  cases a with
  | nil => exact absurd rfl h
  | cons x t => simp

theorem mergeLayers_filter_key (a b : List SoilLayer) (k : ℚ × ℚ) :
    (mergeLayers a b).filter (fun l => decide (layerKeyOf l = k)) =
      ((a ++ b).filter (fun l => decide (layerKeyOf l = k))).take 1 := by
  have htie : ∀ x y : SoilLayer, decide (layerKeyOf x = k) = true →
      decide (layerKeyOf y = k) = true → layerLe x y := by
    intro x y hx hy
    rw [decide_eq_true_iff] at hx hy
    have h1 : x.depthFrom = k.1 := by rw [← hx]; rfl
    have h2 : y.depthFrom = k.1 := by rw [← hy]; rfl
    show x.depthFrom ≤ y.depthFrom
    rw [h1, h2]
  rw [mergeLayers, dedupByKey_filter layerKeyOf k (sortLayers (a ++ b)) [],
    if_neg (List.not_mem_nil k), sortLayers,
    filter_insertionSort_of_tie layerLe (fun l => decide (layerKeyOf l = k)) htie (a ++ b)]

theorem mergeSpt_filter_key (a b : List SPTRecord) (d : ℚ) :
    (mergeSpt a b).filter (fun s => decide (s.depth = d)) =
      ((a ++ b).filter (fun s => decide (s.depth = d))).take 1 := by
  have htie : ∀ x y : SPTRecord, decide (x.depth = d) = true →
      decide (y.depth = d) = true → sptLe x y := by
    intro x y hx hy
    rw [decide_eq_true_iff] at hx hy
    show x.depth ≤ y.depth
    rw [hx, hy]
  rw [mergeSpt, dedupByKey_filter SPTRecord.depth d (sortSpt (a ++ b)) [],
    if_neg (List.not_mem_nil d), sortSpt,
    filter_insertionSort_of_tie sptLe (fun s => decide (s.depth = d)) htie (a ++ b)]

theorem mergeInto_layers_of_ne (existing item : ExtractedData) (h : item.layers ≠ []) :
    (mergeInto existing item).layers = mergeLayers existing.layers item.layers := by
  show (if item.layers.length > 0 then mergeLayers existing.layers item.layers
    else existing.layers) = _
  rw [if_pos (List.length_pos.mpr h)]

theorem mergeInto_spt_of_ne (existing item : ExtractedData) (h : item.spt ≠ []) :
    (mergeInto existing item).spt = mergeSpt existing.spt item.spt := by
  show (if item.spt.length > 0 then mergeSpt existing.spt item.spt
    else existing.spt) = _
  rw [if_pos (List.length_pos.mpr h)]

theorem foldl_insertFrag_all_blank :
    ∀ (l : List ExtractedData) (m : List (String × ExtractedData)),
      (∀ g ∈ l, jsTrim g.header.boreholeName = "") → l.foldl insertFrag m = m := by
  intro l
  induction l with
  | nil => intro m _; rfl
  | cons g rest ih =>
    intro m hl
    rw [List.foldl_cons, insertFrag_blank m g (hl g (List.mem_cons_self g rest))]
    exact ih m fun x hx => hl x (List.mem_cons_of_mem g hx)

/-! ## Claim theorems -/

/-- C1: for every non-empty canonical list, relative mode is selected iff
the spread between the maximum and minimum parsed header elevations exceeds
50 or fewer than 2 boreholes are present; in relative mode every
plotting-surface elevation is 0, otherwise each equals its parsed header
elevation. -/
theorem C1_mode_selection (data : List ExtractedData) (h : data ≠ []) :
    ∃ M m : ℚ, M ∈ elevationsOf data ∧ m ∈ elevationsOf data ∧
      (∀ e ∈ elevationsOf data, e ≤ M) ∧ (∀ e ∈ elevationsOf data, m ≤ e) ∧
      (isRelativeMode data = true ↔ (50 < M - m ∨ data.length < 2)) ∧
      plotElevations data =
        data.map (fun d =>
          if isRelativeMode data = true then 0 else parseElevation d.header.elevation) := by
  have hne : elevationsOf data ≠ [] := by
    intro hc
    exact h (List.map_eq_nil_iff.mp hc)
  refine ⟨listMax (elevationsOf data), listMin (elevationsOf data),
    (listMax_spec _ hne).1, (listMin_spec _ hne).1, (listMax_spec _ hne).2,
    (listMin_spec _ hne).2, ?_, rfl⟩
  rw [isRelativeMode]
  simp [decide_eq_true_iff]

/-- Witness for C1 at the two boreholes of `dataC1` (elevations "10" and
"80", spread 70 > 50): relative mode with both plotting surfaces 0. -/
theorem C1_mode_selection_witness :
    isRelativeMode dataC1 = true ∧ plotElevations dataC1 = [0, 0] ∧
      (∃ M m : ℚ, M ∈ elevationsOf dataC1 ∧ m ∈ elevationsOf dataC1 ∧
        (∀ e ∈ elevationsOf dataC1, e ≤ M) ∧ (∀ e ∈ elevationsOf dataC1, m ≤ e) ∧
        (isRelativeMode dataC1 = true ↔ (50 < M - m ∨ dataC1.length < 2)) ∧
        plotElevations dataC1 =
          dataC1.map (fun d =>
            if isRelativeMode dataC1 = true then 0
            else parseElevation d.header.elevation)) :=
  ⟨of_decide_eq_true (by with_unfolding_all rfl),
   of_decide_eq_true (by with_unfolding_all rfl),
   C1_mode_selection dataC1 (by decide)⟩

/-- C2 counterexample: when the later fragment for an already-seen key has
an empty layer list, the engine leaves the existing (unsorted) layer list
untouched instead of producing the claimed re-sorted deduplicated
concatenation. -/
theorem C2_claim_fails :
    (mergeInto fragC2a fragC2b).layers = [lay23, lay01] ∧
    dedupByKey layerKeyOf (sortLayers (fragC2a.layers ++ fragC2b.layers)) []
      = [lay01, lay23] ∧
    (mergeInto fragC2a fragC2b).layers ≠
      dedupByKey layerKeyOf (sortLayers (fragC2a.layers ++ fragC2b.layers)) [] ∧
    ((mergeBoreholes [fragC2a, fragC2b]).map fun b => b.layers) = [[lay23, lay01]] := by
  refine ⟨by decide, by decide, by decide, by decide⟩

/-- C2 (amended): when a fragment with a NONEMPTY layer list arrives for an
already-seen key, the merged layer list is the concatenation of existing and
incoming, stably re-sorted ascending by `depthFrom`, deduplicated by exact
`(depthFrom, depthTo)` pair with the first-encountered occurrence — and
hence the earlier-arriving whole record, description included — winning; a
fragment whose layer list is empty leaves the existing list untouched.  The
same policy holds for SPT keyed by exact depth. -/
theorem C2_merge_step (existing item : ExtractedData) :
    (item.layers ≠ [] →
      (mergeInto existing item).layers =
        dedupByKey layerKeyOf (sortLayers (existing.layers ++ item.layers)) []) ∧
    (item.layers = [] → (mergeInto existing item).layers = existing.layers) ∧
    (∀ k : ℚ × ℚ, item.layers ≠ [] →
      (existing.layers.filter fun l => decide (layerKeyOf l = k)) ≠ [] →
      ((mergeInto existing item).layers.filter fun l => decide (layerKeyOf l = k)) =
        (existing.layers.filter fun l => decide (layerKeyOf l = k)).take 1) ∧
    (item.spt ≠ [] →
      (mergeInto existing item).spt =
        dedupByKey SPTRecord.depth (sortSpt (existing.spt ++ item.spt)) []) ∧
    (item.spt = [] → (mergeInto existing item).spt = existing.spt) ∧
    (∀ d : ℚ, item.spt ≠ [] →
      (existing.spt.filter fun s => decide (s.depth = d)) ≠ [] →
      ((mergeInto existing item).spt.filter fun s => decide (s.depth = d)) =
        (existing.spt.filter fun s => decide (s.depth = d)).take 1) := by
  refine ⟨?_, ?_, ?_, ?_, ?_, ?_⟩
  · intro h
    exact mergeInto_layers_of_ne existing item h
  · intro h
    show (if item.layers.length > 0 then mergeLayers existing.layers item.layers
      else existing.layers) = _
    rw [h]
    rfl
  · intro k h hex
    rw [mergeInto_layers_of_ne existing item h, mergeLayers_filter_key,
      List.filter_append, take_one_append_left _ _ hex]
  · intro h
    exact mergeInto_spt_of_ne existing item h
  · intro h
    show (if item.spt.length > 0 then mergeSpt existing.spt item.spt
      else existing.spt) = _
    rw [h]
    rfl
  · intro d h hex
    rw [mergeInto_spt_of_ne existing item h, mergeSpt_filter_key,
      List.filter_append, take_one_append_left _ _ hex]

/-- Witness for C2 on a concrete collision: the `(0, 1)` layer and depth-1
SPT record of the earlier fragment win. -/
theorem C2_merge_step_witness :
    (mergeInto exC2 itC2).layers =
      dedupByKey layerKeyOf (sortLayers (exC2.layers ++ itC2.layers)) [] ∧
    ((mergeInto exC2 itC2).layers.filter fun l => decide (layerKeyOf l = (0, 1))) =
      (exC2.layers.filter fun l => decide (layerKeyOf l = (0, 1))).take 1 ∧
    (mergeInto exC2 itC2).spt =
      dedupByKey SPTRecord.depth (sortSpt (exC2.spt ++ itC2.spt)) [] ∧
    ((mergeInto exC2 itC2).spt.filter fun s => decide (s.depth = 1)) =
      (exC2.spt.filter fun s => decide (s.depth = 1)).take 1 :=
  ⟨(C2_merge_step exC2 itC2).1 (by decide),
   (C2_merge_step exC2 itC2).2.2.1 (0, 1) (by decide) (by decide),
   (C2_merge_step exC2 itC2).2.2.2.1 (by decide),
   (C2_merge_step exC2 itC2).2.2.2.2.2 1 (by decide) (by decide)⟩

/-- C3 counterexample: merging a later fragment into a first-seen header
with empty `projectName` and empty `date` DOES back-fill `projectName`
(the claim exempts it) and does NOT back-fill `date` (the claim requires
it). -/
theorem C3_claim_fails :
    ((mergeBoreholes [fragC3a, fragC3b]).map fun b =>
        (b.header.projectName, b.header.date)) = [("Tower", "")] ∧
    fragC3a.header.projectName = "" ∧ fragC3a.header.date = "" ∧
    fragC3b.header.projectName = "Tower" ∧ fragC3b.header.date = "2024-01-01" ∧
    ((mergeBoreholes [fragC3a, fragC3b]).map fun b => b.header.projectName)
      ≠ [fragC3a.header.projectName] ∧
    ((mergeBoreholes [fragC3a, fragC3b]).map fun b => b.header.date)
      ≠ [fragC3b.header.date] := by
  refine ⟨by decide, by decide, by decide, by decide, by decide, by decide, by decide⟩

/-- C3 (amended): the per-key merge back-fills exactly `projectName`,
`elevation`, `coordinates` and `waterTable` — keeping the existing value
unless it is empty or the recognised placeholder ("0.00" for elevation, "-"
for water table), in which case the incoming value replaces it — and never
changes `boreholeName`, `date` or `client`. -/
theorem C3_header_backfill (existing item : ExtractedData) :
    ((mergeInto existing item).header.projectName =
      if existing.header.projectName = "" then item.header.projectName
      else existing.header.projectName) ∧
    ((mergeInto existing item).header.elevation =
      if existing.header.elevation = "" ∨ existing.header.elevation = "0.00"
      then item.header.elevation else existing.header.elevation) ∧
    ((mergeInto existing item).header.coordinates =
      if existing.header.coordinates = "" then item.header.coordinates
      else existing.header.coordinates) ∧
    ((mergeInto existing item).header.waterTable =
      if existing.header.waterTable = "-" ∨ existing.header.waterTable = ""
      then item.header.waterTable else existing.header.waterTable) ∧
    (mergeInto existing item).header.boreholeName = existing.header.boreholeName ∧
    (mergeInto existing item).header.date = existing.header.date ∧
    (mergeInto existing item).header.client = existing.header.client :=
  ⟨rfl, rfl, rfl, rfl, rfl, rfl, rfl⟩

/-- C4 counterexample: a canonical borehole built from exactly one fragment
keeps that fragment's layer list verbatim, here unsorted. -/
theorem C4_claim_fails :
    mergeBoreholes [fragC4] = [fragC4] ∧ ¬ layersWellFormed fragC4.layers := by
  refine ⟨by decide, by decide⟩

/-- C4 (amended): every canonical borehole's layer sequence is either
ordered by `depthFrom` with pairwise-distinct `(depthFrom, depthTo)` pairs,
or is verbatim the layer list of one contributing fragment (the case in
which no later fragment for the key supplied a nonempty layer list); the
same holds for SPT sequences with exact depth. -/
theorem C4_canonical_shape (rawList : List ExtractedData) :
    ∀ bh ∈ mergeBoreholes rawList,
      (layersWellFormed bh.layers ∨ ∃ f ∈ rawList, bh.layers = f.layers) ∧
      (sptWellFormed bh.spt ∨ ∃ f ∈ rawList, bh.spt = f.spt) := by
  intro bh hbh
  rw [mergeBoreholes] at hbh
  have hbh' : bh ∈ (buildMap rawList).map Prod.snd :=
    (List.perm_insertionSort bhLe _).mem_iff.mp hbh
  rcases List.mem_map.mp hbh' with ⟨e, he, rfl⟩
  exact foldl_insertFrag_shape rawList rawList (fun f hf => hf) [] (by simp) e he

/-- Witness for C4 at a two-fragment merge. -/
theorem C4_canonical_shape_witness :
    (layersWellFormed ((mergeBoreholes dataC4).getD 0 fragC4).layers ∨
      ∃ f ∈ dataC4, ((mergeBoreholes dataC4).getD 0 fragC4).layers = f.layers) ∧
    (sptWellFormed ((mergeBoreholes dataC4).getD 0 fragC4).spt ∨
      ∃ f ∈ dataC4, ((mergeBoreholes dataC4).getD 0 fragC4).spt = f.spt) :=
  C4_canonical_shape dataC4 ((mergeBoreholes dataC4).getD 0 fragC4) (by decide)

/-- C5 counterexample: the same two-fragment multiset in both orders, with
no layer or SPT records anywhere (so no depth-interval or SPT-depth
tie-break exists), still yields different canonical boreholes — header
back-fill is also first-wins. -/
theorem C5_claim_fails :
    fragC5a.layers = [] ∧ fragC5a.spt = [] ∧ fragC5b.layers = [] ∧ fragC5b.spt = [] ∧
    ((mergeBoreholes [fragC5a, fragC5b]).map fun b => b.header.elevation) = ["10"] ∧
    ((mergeBoreholes [fragC5b, fragC5a]).map fun b => b.header.elevation) = ["30"] ∧
    mergeBoreholes [fragC5a, fragC5b] ≠ mergeBoreholes [fragC5b, fragC5a] := by
  refine ⟨by decide, by decide, by decide, by decide, by decide, by decide, by decide⟩

/-- C5 (amended): reconciliation is determined by the per-key arrival-order
subsequences alone: any two fragment lists in which every (nonempty) key has
the identical subsequence of fragments — in particular permutations that
preserve each key's internal order — produce outputs that are permutations
of each other, i.e. the same set of canonical boreholes identical in every
field.  Reorderings WITHIN a key may change results through the first-wins
tie-breaks, which include header back-fill as well as duplicate depth
intervals and SPT depths. -/
theorem C5_perkey_invariance (l1 l2 : List ExtractedData)
    (h : ∀ k : String, k ≠ "" →
      (l1.filter fun f => decide (trimName f = k)) =
      (l2.filter fun f => decide (trimName f = k))) :
    (mergeBoreholes l1).Perm (mergeBoreholes l2) := by
  have hlook : ∀ k : String, lookupKey (buildMap l1) k = lookupKey (buildMap l2) k := by
    intro k
    by_cases hk : k = ""
    · subst hk
      rw [lookupKey_buildMap_empty, lookupKey_buildMap_empty]
    · rw [lookupKey_buildMap l1 k hk, lookupKey_buildMap l2 k hk, h k hk]
  have hn1 := buildMap_keys_nodup l1
  have hn2 := buildMap_keys_nodup l2
  have hent : ∀ e : String × ExtractedData, e ∈ buildMap l1 ↔ e ∈ buildMap l2 := by
    intro e
    rw [mem_iff_lookupKey (buildMap l1) hn1 e, mem_iff_lookupKey (buildMap l2) hn2 e,
      hlook e.1]
  have hperm : (buildMap l1).Perm (buildMap l2) := by
    apply List.perm_of_nodup_nodup_toFinset_eq
      (List.Nodup.of_map Prod.fst hn1) (List.Nodup.of_map Prod.fst hn2)
    ext a
    simp only [List.mem_toFinset]
    exact hent a
  exact ((List.perm_insertionSort bhLe _).trans (hperm.map Prod.snd)).trans
    (List.perm_insertionSort bhLe _).symm

/-- Witness for C5: swapping two distinct-key fragments leaves the output a
permutation of itself. -/
theorem C5_perkey_invariance_witness :
    (mergeBoreholes [fragC5c, fragC5d]).Perm (mergeBoreholes [fragC5d, fragC5c]) := by
  apply C5_perkey_invariance
  intro k hk
  have ha : trimName fragC5c = "A" := by decide
  have hb : trimName fragC5d = "B" := by decide
  by_cases hA : trimName fragC5c = k <;> by_cases hB : trimName fragC5d = k
  · exact absurd (ha ▸ hA ▸ hb ▸ hB.symm ▸ rfl) (by decide : ("A" : String) ≠ "B")
  · simp [List.filter_cons, hA, hB]
  · simp [List.filter_cons, hA, hB]
  · simp [List.filter_cons, hA, hB]

/-- C7: the Reconciliation Engine's output is sorted by natural
numeric-aware borehole-name comparison; in particular "BH-2", "BH-10",
"BH-1" come out as "BH-1", "BH-2", "BH-10". -/
theorem C7_natural_sort :
    (∀ rawList : List ExtractedData, List.Sorted bhLe (mergeBoreholes rawList)) ∧
    (mergeBoreholes [fragBH2, fragBH10, fragBH1]).map (fun b => b.header.boreholeName)
      = ["BH-1", "BH-2", "BH-10"] :=
  ⟨fun rawList => List.sorted_insertionSort bhLe ((buildMap rawList).map Prod.snd),
   by decide⟩

/-- C8: the Reconciliation Engine never fails: fragments whose borehole name
trims to the empty string are silently discarded and contribute nothing, an
all-unnamed input yields the empty output list, and every other fragment is
attributed to the canonical borehole of its trimmed name (the entry for key
`k` is built from exactly the arrival-ordered fragments whose trimmed name
is `k`). -/
theorem C8_unnamed_dropped :
    (∀ l : List ExtractedData,
      (∀ g ∈ l, jsTrim g.header.boreholeName = "") → mergeBoreholes l = []) ∧
    (∀ (l1 l2 : List ExtractedData) (f : ExtractedData),
      jsTrim f.header.boreholeName = "" →
      mergeBoreholes (l1 ++ f :: l2) = mergeBoreholes (l1 ++ l2)) ∧
    (∀ (l : List ExtractedData) (k : String), k ≠ "" →
      lookupKey (buildMap l) k =
        processKey (l.filter fun g => decide (trimName g = k))) := by
  refine ⟨?_, ?_, ?_⟩
  · intro l hl
    rw [mergeBoreholes, buildMap, foldl_insertFrag_all_blank l [] hl]
    rfl
  · intro l1 l2 f hf
    rw [mergeBoreholes, mergeBoreholes, buildMap, buildMap, List.foldl_append,
      List.foldl_append, List.foldl_cons, insertFrag_blank _ f hf]
  · intro l k hk
    exact lookupKey_buildMap l k hk

/-- Witness for C8: a blank-named fragment disappears, an all-blank input
yields `[]`, and key "A" aggregates exactly its own fragments. -/
theorem C8_unnamed_dropped_witness :
    mergeBoreholes [fragC8blank] = [] ∧
    mergeBoreholes ([fragC8a] ++ fragC8blank :: []) = mergeBoreholes ([fragC8a] ++ []) ∧
    lookupKey (buildMap [fragC8a, fragC8blank]) "A" =
      processKey ([fragC8a, fragC8blank].filter fun g => decide (trimName g = "A")) :=
  ⟨C8_unnamed_dropped.1 [fragC8blank] (by decide),
   C8_unnamed_dropped.2.1 [fragC8a] [] fragC8blank (by decide),
   C8_unnamed_dropped.2.2 [fragC8a, fragC8blank] "A" (by decide)⟩

/-- C9: invoking the Layout Engine with zero canonical boreholes reports the
failure — the render throws — instead of producing any layout model. -/
theorem C9_layout_empty_fails :
    buildLayout [] =
      Except.error "TypeError: cannot read properties of undefined (reading header)" :=
  rfl

/-- C6: one shared linear map
`getY e = MARGIN_TOP + (topElev - e) * PIXELS_PER_METER` assigns the vertical
pixel of every grid line, every layer-rectangle boundary and every SPT
point, so any two of them at the same elevation land on exactly the same
pixel y in every column. -/
theorem C6_shared_scale (data : List ExtractedData) (layout : LayoutModel)
    (hok : buildLayout data = Except.ok layout) :
    (∀ e : ℚ, getY layout.topElev e =
      MARGIN_TOP + ((layout.topElev : ℚ) - e) * PIXELS_PER_METER) ∧
    (∀ g ∈ layout.grid, g.y = getY layout.topElev (g.elev : ℚ)) ∧
    (∀ col ∈ layout.columns,
      (∀ r ∈ col.rects,
        r.yTop = getY layout.topElev (col.surf - r.layer.depthFrom) ∧
        r.yBot = getY layout.topElev (col.surf - r.layer.depthTo)) ∧
      (∀ p ∈ col.points, p.y = getY layout.topElev (col.surf - p.record.depth))) ∧
    (∀ col ∈ layout.columns, ∀ g ∈ layout.grid,
      (∀ r ∈ col.rects, col.surf - r.layer.depthFrom = (g.elev : ℚ) → r.yTop = g.y) ∧
      (∀ p ∈ col.points, col.surf - p.record.depth = (g.elev : ℚ) → p.y = g.y)) ∧
    (∀ col ∈ layout.columns, ∀ r ∈ col.rects, ∀ p ∈ col.points,
      col.surf - r.layer.depthFrom = col.surf - p.record.depth → r.yTop = p.y) := by
  cases data with
  | nil => simp [buildLayout] at hok
  | cons d rest =>
    simp only [buildLayout, Except.ok.injEq] at hok
    subst hok
    have hgrid : ∀ g ∈ (buildLayoutCore (d :: rest) d).grid,
        g.y = getY (buildLayoutCore (d :: rest) d).topElev (g.elev : ℚ) := by
      intro g hg
      simp only [buildLayoutCore] at hg ⊢
      rcases List.mem_map.mp hg with ⟨i, _, rfl⟩
      show getY _ _ = getY _ _
      congr 1
      push_cast
      ring
    have hcols : ∀ col ∈ (buildLayoutCore (d :: rest) d).columns,
        (∀ r ∈ col.rects,
          r.yTop = getY (buildLayoutCore (d :: rest) d).topElev
            (col.surf - r.layer.depthFrom) ∧
          r.yBot = getY (buildLayoutCore (d :: rest) d).topElev
            (col.surf - r.layer.depthTo)) ∧
        (∀ p ∈ col.points,
          p.y = getY (buildLayoutCore (d :: rest) d).topElev
            (col.surf - p.record.depth)) := by
      intro col hcol
      simp only [buildLayoutCore] at hcol
      rcases List.mem_map.mp hcol with ⟨q, _, rfl⟩
      constructor
      · intro r hr
        simp only [buildColumn] at hr
        rcases List.mem_map.mp hr with ⟨l, _, rfl⟩
        exact ⟨rfl, rfl⟩
      · intro p hp
        simp only [buildColumn] at hp
        rcases List.mem_map.mp hp with ⟨q', _, rfl⟩
        rfl
    refine ⟨fun e => rfl, hgrid, hcols, ?_, ?_⟩
    · intro col hcol g hg
      constructor
      · intro r hr heq
        rw [((hcols col hcol).1 r hr).1, heq, hgrid g hg]
      · intro p hp heq
        rw [(hcols col hcol).2 p hp, heq, hgrid g hg]
    · intro col hcol r hr p hp heq
      rw [((hcols col hcol).1 r hr).1, heq, (hcols col hcol).2 p hp]

/-- Witness for C6 at the one-borehole layout of `fragC6`. -/
theorem C6_shared_scale_witness :
    (∀ e : ℚ, getY (buildLayoutCore [fragC6] fragC6).topElev e =
      MARGIN_TOP + (((buildLayoutCore [fragC6] fragC6).topElev : ℚ) - e)
        * PIXELS_PER_METER) ∧
    (∀ g ∈ (buildLayoutCore [fragC6] fragC6).grid,
      g.y = getY (buildLayoutCore [fragC6] fragC6).topElev (g.elev : ℚ)) ∧
    (∀ col ∈ (buildLayoutCore [fragC6] fragC6).columns,
      (∀ r ∈ col.rects,
        r.yTop = getY (buildLayoutCore [fragC6] fragC6).topElev
          (col.surf - r.layer.depthFrom) ∧
        r.yBot = getY (buildLayoutCore [fragC6] fragC6).topElev
          (col.surf - r.layer.depthTo)) ∧
      (∀ p ∈ col.points,
        p.y = getY (buildLayoutCore [fragC6] fragC6).topElev
          (col.surf - p.record.depth))) ∧
    (∀ col ∈ (buildLayoutCore [fragC6] fragC6).columns,
      ∀ g ∈ (buildLayoutCore [fragC6] fragC6).grid,
      (∀ r ∈ col.rects, col.surf - r.layer.depthFrom = (g.elev : ℚ) → r.yTop = g.y) ∧
      (∀ p ∈ col.points, col.surf - p.record.depth = (g.elev : ℚ) → p.y = g.y)) ∧
    (∀ col ∈ (buildLayoutCore [fragC6] fragC6).columns,
      ∀ r ∈ col.rects, ∀ p ∈ col.points,
      col.surf - r.layer.depthFrom = col.surf - p.record.depth → r.yTop = p.y) :=
  C6_shared_scale [fragC6] (buildLayoutCore [fragC6] fragC6) rfl

/-- C10 counterexample: the engines do mutate the upstream data.  The merge
writes back-fill through the header object shared with the first-arriving
fragment (`{ ...item }` copies the object shallowly), so after the run
`fragC10a`'s header holds the back-filled elevation and differs from its
handed-in value; and rendering sorts `bhC10.spt` in place, leaving the
canonical record's SPT order changed. -/
theorem C10_claim_fails :
    firstFragmentHeaderAfter fragC10a [fragC10b] ≠ fragC10a.header ∧
    ((mergeBoreholes [fragC10a, fragC10b]).map fun b => b.header)
      = [firstFragmentHeaderAfter fragC10a [fragC10b]] ∧
    ((buildLayoutCore [bhC10] bhC10).columns.map fun c => c.sptAfter)
      = [[spt1, spt2]] ∧
    bhC10.spt = [spt2, spt1] ∧
    ([[spt1, spt2]] : List (List SPTRecord)) ≠ [[spt2, spt1]] :=
  ⟨by decide, by decide,
   of_decide_eq_true (by with_unfolding_all rfl),
   by decide, by decide⟩

/-- C10 (amended): the two mutation effects are exactly these — header
back-fill writes through the first-arriving fragment's shared header object
(never touching its `boreholeName`, `date` or `client`), and the Layout
Engine re-sorts each borehole's SPT array in place into ascending-depth
order, a permutation of the handed-off records. -/
theorem C10_mutation_shape (first : ExtractedData) (rest : List ExtractedData)
    (bh : ExtractedData) (data : List ExtractedData) (d0 : ExtractedData)
    (col : BoreholeColumn) (hcol : col ∈ (buildLayoutCore data d0).columns) :
    (firstFragmentHeaderAfter first rest).boreholeName = first.header.boreholeName ∧
    (firstFragmentHeaderAfter first rest).date = first.header.date ∧
    (firstFragmentHeaderAfter first rest).client = first.header.client ∧
    (sortSpt bh.spt).Perm bh.spt ∧
    List.Sorted sptLe (sortSpt bh.spt) ∧
    col.sptAfter = sortSpt col.bh.spt := by
  have hfixed : ∀ (r : List ExtractedData) (f : ExtractedData),
      (r.foldl mergeInto f).header.boreholeName = f.header.boreholeName ∧
      (r.foldl mergeInto f).header.date = f.header.date ∧
      (r.foldl mergeInto f).header.client = f.header.client := by
    intro r
    induction r with
    | nil => intro f; exact ⟨rfl, rfl, rfl⟩
    | cons x t ih =>
      intro f
      rw [List.foldl_cons]
      exact ih (mergeInto f x)
  have hafter : col.sptAfter = sortSpt col.bh.spt := by
    simp only [buildLayoutCore] at hcol
    rcases List.mem_map.mp hcol with ⟨q, _, rfl⟩
    rfl
  exact ⟨(hfixed rest first).1, (hfixed rest first).2.1, (hfixed rest first).2.2,
    List.perm_insertionSort sptLe bh.spt, List.sorted_insertionSort sptLe bh.spt,
    hafter⟩

set_option maxRecDepth 8000 in
/-- Witness for C10 at the concrete merge pair and rendered column. -/
theorem C10_mutation_shape_witness :
    (firstFragmentHeaderAfter fragC10a [fragC10b]).boreholeName
      = fragC10a.header.boreholeName ∧
    (firstFragmentHeaderAfter fragC10a [fragC10b]).date = fragC10a.header.date ∧
    (firstFragmentHeaderAfter fragC10a [fragC10b]).client = fragC10a.header.client ∧
    (sortSpt bhC10.spt).Perm bhC10.spt ∧
    List.Sorted sptLe (sortSpt bhC10.spt) ∧
    colC10.sptAfter = sortSpt colC10.bh.spt :=
  C10_mutation_shape fragC10a [fragC10b] bhC10 [bhC10] bhC10 colC10
    (of_decide_eq_true (by with_unfolding_all rfl))

end GeoPlot
